import Mathlib

/-!
Verification of the filtering-and-aggregation engine of the SME dashboard
(`src/sme_app.py`) against its natural-language specification.

The engine is embedded shallowly: a pandas data frame becomes a `List Record`,
a data-frame column becomes a `List (Option String)` (`none` models a missing
cell, pandas `NaN`), and each line of engine logic becomes a Lean definition
named after the source variable it computes.
-/

namespace SmeApp

/-! ## Stable sorting

`pandas.Series.value_counts` orders the distinct values of a column by
descending frequency; the distinct values are produced in the order they are
first observed while scanning the column, and values of equal frequency keep
that order.  We model this with an explicit stable insertion sort on
`(label, count)` pairs, written as structural recursion so that concrete
instances evaluate inside the kernel. -/

/-- Insert `a` into `l` in front of the first element `b` with `le a b`. -/
def ordIns (le : α → α → Bool) (a : α) : List α → List α
  | [] => [a]
  | b :: l => if le a b then a :: b :: l else b :: ordIns le a l

/-- Stable insertion sort with respect to the boolean comparison `le`. -/
def stableSortBy (le : α → α → Bool) : List α → List α
  | [] => []
  | a :: l => ordIns le a (stableSortBy le l)

theorem ordIns_perm (le : α → α → Bool) (a : α) :
    ∀ l : List α, List.Perm (ordIns le a l) (a :: l) := by
  intro l
  induction l with
  | nil => simp [ordIns]
  | cons b l ih =>
    by_cases h : le a b
    · simp [ordIns, h]
    · simp only [ordIns, h, if_neg, Bool.false_eq_true, not_false_eq_true, if_false]
      exact (ih.cons b).trans (List.Perm.swap a b l)

theorem stableSortBy_perm (le : α → α → Bool) :
    ∀ l : List α, List.Perm (stableSortBy le l) l := by
  intro l
  induction l with
  | nil => simp [stableSortBy]
  | cons a l ih => exact (ordIns_perm le a (stableSortBy le l)).trans (ih.cons a)

theorem mem_ordIns (le : α → α → Bool) (a x : α) (l : List α) :
    x ∈ ordIns le a l ↔ x = a ∨ x ∈ l := by
  rw [(ordIns_perm le a l).mem_iff, List.mem_cons]

theorem mem_stableSortBy (le : α → α → Bool) (x : α) (l : List α) :
    x ∈ stableSortBy le l ↔ x ∈ l :=
  (stableSortBy_perm le l).mem_iff

theorem pairwise_ordIns (le : α → α → Bool)
    (htot : ∀ x y, le x y = false → le y x = true)
    (htrans : ∀ x y z, le x y = true → le y z = true → le x z = true)
    (a : α) :
    ∀ l : List α, l.Pairwise (le · · = true) →
      (ordIns le a l).Pairwise (le · · = true) := by
  intro l
  induction l with
  | nil => intro _; simp [ordIns]
  | cons b l ih =>
    intro hp
    rcases List.pairwise_cons.mp hp with ⟨hb, hl⟩
    by_cases h : le a b
    · simp only [ordIns, h, if_true]
      refine List.pairwise_cons.mpr ⟨?_, hp⟩
      intro x hx
      rcases List.mem_cons.mp hx with rfl | hx
      · exact h
      · exact htrans a b x h (hb x hx)
    · simp only [ordIns, h, Bool.false_eq_true, if_false]
      refine List.pairwise_cons.mpr ⟨?_, ih hl⟩
      intro x hx
      rcases (mem_ordIns le a x l).mp hx with rfl | hx
      · exact htot x b (Bool.eq_false_iff.mpr h)
      · exact hb x hx

theorem pairwise_stableSortBy (le : α → α → Bool)
    (htot : ∀ x y, le x y = false → le y x = true)
    (htrans : ∀ x y z, le x y = true → le y z = true → le x z = true) :
    ∀ l : List α, (stableSortBy le l).Pairwise (le · · = true) := by
  intro l
  induction l with
  | nil => simp [stableSortBy]
  | cons a l ih => exact pairwise_ordIns le htot htrans a _ ih

theorem filter_ordIns_pos (le : α → α → Bool) (p : α → Bool) (a : α)
    (ha : p a = true) :
    ∀ l : List α, (∀ x ∈ l, p x = true → le a x = true) →
      (ordIns le a l).filter p = a :: l.filter p := by
  intro l
  induction l with
  | nil => simp [ordIns, ha]
  | cons b l ih =>
    intro hle
    by_cases h : le a b
    · simp [ordIns, h, List.filter_cons, ha]
    · have hpb : p b = false := by
        cases hpb : p b with
        | false => rfl
        | true => exact absurd (hle b (List.mem_cons_self b l) hpb) (by simpa using h)
      simp only [ordIns, h, Bool.false_eq_true, if_false, List.filter_cons, hpb,
        Bool.false_eq_true, if_false]
      exact ih (fun x hx => hle x (List.mem_cons_of_mem b hx))

theorem filter_ordIns_neg (le : α → α → Bool) (p : α → Bool) (a : α)
    (ha : p a = false) :
    ∀ l : List α, (ordIns le a l).filter p = l.filter p := by
  intro l
  induction l with
  | nil => simp [ordIns, ha]
  | cons b l ih =>
    by_cases h : le a b
    · simp [ordIns, h, List.filter_cons, ha]
    · simp only [ordIns, h, Bool.false_eq_true, if_false, List.filter_cons]
      rw [ih]

/-- Stability of the sort: the subsequence of entries picked out by a predicate
`p` that only ever selects mutually tied elements is exactly the same
subsequence, in the same order, as in the unsorted list. -/
theorem filter_stableSortBy (le : α → α → Bool) (p : α → Bool)
    (hties : ∀ x y, p x = true → p y = true → le x y = true) :
    ∀ l : List α, (stableSortBy le l).filter p = l.filter p := by
  intro l
  induction l with
  | nil => simp [stableSortBy]
  | cons a l ih =>
    cases ha : p a with
    | true =>
      have : (ordIns le a (stableSortBy le l)).filter p
          = a :: (stableSortBy le l).filter p := by
        refine filter_ordIns_pos le p a ha _ ?_
        intro x _ hx
        exact hties a x ha hx
      simp only [stableSortBy, this, ih, List.filter_cons, ha, if_true]
    | false =>
      simp only [stableSortBy, filter_ordIns_neg le p a ha, ih,
        List.filter_cons, ha, Bool.false_eq_true, if_false]

/-! ## Data model

One row of the data frame.  The engine only reads the categorical columns
`city`, `state` and `industry`; `lat`/`lng` are validated upstream
(`dropna(subset=["lat","lng"])` in `load_data`) and are consumed solely by the
map-rendering glue, so they are not part of the embedded record.  A field value
`none` models a missing cell (pandas `NaN`). -/
structure Record where
  name : String
  city : Option String
  state : Option String
  industry : Option String
deriving DecidableEq, Repr

/-- User-chosen filter lists from the sidebar multiselect widgets
(`selected_states`, `selected_industries`).  The widgets offer each observed
value once, so the lists are duplicate-free in the running program. -/
structure FilterSelection where
  selectedStates : List String
  selectedIndustries : List String
deriving DecidableEq, Repr

/-- Model of Python `str.lower()` (and of pandas `Series.str.lower` on one
cell): lowercase every character.  This is `String.toLower`, but written as
structural recursion over the character list so that concrete instances
evaluate inside the kernel. -/
def lowerStr (s : String) : String :=
  ⟨s.data.map Char.toLower⟩

/-- Membership test of one cell against a list of values: pandas
`Series.isin` is `False` on a missing cell. -/
def isinCell (cell : Option String) (vals : List String) : Bool :=
  match cell with
  | some v => vals.contains v
  | none => false

/-- The hardcoded South-West region allow-list, src/sme_app.py line 46. -/
def south_west_states : List String :=
  ["lagos", "oyo", "ogun", "osun", "ondo", "ekiti"]

/-- Region pre-filter, line 47:
`df = df[df['state'].str.lower().isin(south_west_states)]`.
`str.lower()` of a missing cell is missing, and `isin` is then `False`. -/
def regionFilter (df : List Record) : List Record :=
  df.filter fun r =>
    match r.state with
    | some s => south_west_states.contains (lowerStr s)
    | none => false

/-- Selection filter, lines 56-59:
`filtered_df = df[df['state'].isin(selected_states) & df['industry'].isin(selected_industries)]`. -/
def filtered_df (df : List Record) (sel : FilterSelection) : List Record :=
  df.filter fun r =>
    isinCell r.state sel.selectedStates && isinCell r.industry sel.selectedIndustries

/-! ## Aggregation (`value_counts`) -/

/-- Distinct values of a list in order of first occurrence. -/
def firstSeen (vals : List String) : List String :=
  vals.foldl (fun acc v => if acc.contains v then acc else acc ++ [v]) []

/-- Frequency table of the non-missing values of a column, one `(value, count)`
pair per distinct value, in first-observed order. -/
def freq_pairs (col : List (Option String)) : List (String × Nat) :=
  (firstSeen (col.filterMap id)).map fun v => (v, (col.filterMap id).count v)

/-- Descending-by-count comparison used by `value_counts`. -/
def countDesc (a b : String × Nat) : Bool := decide (b.2 ≤ a.2)

/-- Ascending-by-count comparison used by `Series.sort_values()`. -/
def countAsc (a b : String × Nat) : Bool := decide (a.2 ≤ b.2)

/-- Model of `Series.value_counts()` on a column: drop missing cells, count
each distinct value, and sort descending by count; ties keep first-observed
order. -/
def value_counts (col : List (Option String)) : List (String × Nat) :=
  stableSortBy countDesc (freq_pairs col)

/-- City ranking, line 96:
`city_counts = filtered_df['city'].value_counts().head(10).sort_values()` —
note the trailing `sort_values()`, which re-sorts the kept top-10 ascending by
count for the bar chart. -/
def city_counts (rs : List Record) : List (String × Nat) :=
  stableSortBy countAsc ((value_counts (rs.map (·.city))).take 10)

/-- State frequency table, line 101: `state_counts = filtered_df['state'].value_counts()`. -/
def state_counts (rs : List Record) : List (String × Nat) :=
  value_counts (rs.map (·.state))

/-- Top six states, line 102: `top_states = state_counts.head(6)`. -/
def top_states (rs : List Record) : List (String × Nat) :=
  (state_counts rs).take 6

/-- Remainder mass, line 103: `others = state_counts.iloc[6:].sum()`. -/
def others (rs : List Record) : Nat :=
  (((state_counts rs).drop 6).map (·.2)).sum

/-- Pie-chart entries, lines 104-105: the top six states plus a synthetic
`("Others", others)` entry exactly when `others > 0`. -/
def state_ranked (rs : List Record) : List (String × Nat) :=
  top_states rs ++ (if 0 < others rs then [("Others", others rs)] else [])

/-! ## Insight summary -/

/-- Maximum count of a ranking (pandas `Series.max()`, over a non-empty
series). -/
def seriesMax (l : List (String × Nat)) : Nat :=
  (l.map (·.2)).foldl Nat.max 0

/-- Label of the first entry attaining the maximum count (pandas
`Series.idxmax()`, over a non-empty series). -/
def idxmax (l : List (String × Nat)) : Option String :=
  (l.find? fun p => p.2 == seriesMax l).map (·.1)

/-- Model of Python `str.title()` on the character list: an alphabetic
character is uppercased when it follows a non-alphabetic character (or starts
the string) and lowercased otherwise. -/
def titleChars : Bool → List Char → List Char
  | _, [] => []
  | prevAlpha, c :: cs =>
    (if c.isAlpha then (if prevAlpha then c.toLower else c.toUpper) else c)
      :: titleChars c.isAlpha cs

/-- Model of Python `str.title()`. -/
def title (s : String) : String := ⟨titleChars false s.data⟩

/-- Summary facts rendered by the KPI boxes and the Key Insights block. -/
structure Summary where
  totalCount : Nat
  stateCount : Nat
  topState : String
  topStateCount : Nat
  statesDisplay : String
  industriesDisplay : String
deriving DecidableEq, Repr

/-- Insight summarizer, lines 63-64 and 117-124 of src/sme_app.py:
`totalCount` is `len(filtered_df)`; `stateCount` is `len(selected_states)`;
`top_state = top_states.idxmax() if not top_states.empty else "N/A"` and is
rendered as `top_state.title()`; `top_count = top_states.max() if not
top_states.empty else 0`; the filtered lists are comma-joined, with the
industries list replaced by the literal `"All"` when empty. -/
def summarize (filtered : List Record) (sel : FilterSelection) : Summary :=
  let tops := top_states filtered
  { totalCount := filtered.length
    stateCount := sel.selectedStates.length
    topState := title (if tops.isEmpty then "N/A" else (idxmax tops).getD "N/A")
    topStateCount := if tops.isEmpty then 0 else seriesMax tops
    statesDisplay := String.intercalate ", " sel.selectedStates
    industriesDisplay :=
      if sel.selectedIndustries.isEmpty then "All"
      else String.intercalate ", " sel.selectedIndustries }

/-! ## Spec-side reading used for refinement comparison -/

/-- Claim-side reading of the summarizer's top-state rule, following the
spec's words: the (title-cased) label of the first highest-count entry of the
*collapsed* state RankedCount (`state_ranked`, synthetic `Others` bucket
included), with the `"N/A"` fallback on an empty ranking.  Compared against
`summarize`, which the source computes from `top_states` instead. -/
def spec_topState (rs : List Record) : String :=
  title (if (state_ranked rs).isEmpty then "N/A" else (idxmax (state_ranked rs)).getD "N/A")

/-- Claim-side reading of the summarizer's top-state count: the count of the
highest-count entry of the collapsed state RankedCount. -/
def spec_topStateCount (rs : List Record) : Nat :=
  if (state_ranked rs).isEmpty then 0 else seriesMax (state_ranked rs)

/-! ## Demo data for concrete instances -/

/-- Helper building a fully populated row. -/
def mkRec (name city state industry : String) : Record :=
  ⟨name, some city, some state, some industry⟩

/-- Three demo rows: two in `ikeja` (Lagos), one in `ibadan` (Oyo). -/
def demoRows : List Record :=
  [mkRec "r1" "ikeja" "Lagos" "food",
   mkRec "r2" "ikeja" "Lagos" "tech",
   mkRec "r3" "ibadan" "Oyo" "food"]

/-- Selection matching every demo row. -/
def demoSel : FilterSelection := ⟨["Lagos", "Oyo"], ["food", "tech"]⟩

/-- Selection with no state chosen. -/
def emptyStatesSel : FilterSelection := ⟨[], ["food", "tech"]⟩

/-- Selection whose chosen states match no demo row. -/
def noMatchStatesSel : FilterSelection := ⟨["Ekiti"], ["food", "tech"]⟩

/-- Selection with no industry chosen. -/
def emptyIndustriesSel : FilterSelection := ⟨["Lagos"], []⟩

/-- Eleven rows with eleven distinct city values (more than the kept top 10). -/
def elevenCityRows : List Record :=
  [mkRec "r01" "c01" "Lagos" "food",
   mkRec "r02" "c02" "Lagos" "food",
   mkRec "r03" "c03" "Lagos" "food",
   mkRec "r04" "c04" "Lagos" "food",
   mkRec "r05" "c05" "Lagos" "food",
   mkRec "r06" "c06" "Lagos" "food",
   mkRec "r07" "c07" "Lagos" "food",
   mkRec "r08" "c08" "Lagos" "food",
   mkRec "r09" "c09" "Lagos" "food",
   mkRec "r10" "c10" "Lagos" "food",
   mkRec "r11" "c11" "Lagos" "food"]

/-- Eight rows whose state column holds eight distinct case-variant spellings,
each of which survives the case-insensitive region pre-filter, so a state
column with more than six distinct values is reachable in the program. -/
def caseVariantRows : List Record :=
  [mkRec "r1" "ikeja" "Lagos" "food",
   mkRec "r2" "epe" "lagos" "food",
   mkRec "r3" "ibadan" "Oyo" "food",
   mkRec "r4" "ogbomoso" "oyo" "food",
   mkRec "r5" "abeokuta" "Ogun" "food",
   mkRec "r6" "ijebu" "ogun" "food",
   mkRec "r7" "osogbo" "Osun" "food",
   mkRec "r8" "ile-ife" "osun" "food"]

/-- Selection keeping every case-variant row. -/
def caseVariantSel : FilterSelection :=
  ⟨["Lagos", "lagos", "Oyo", "oyo", "Ogun", "ogun", "Osun", "osun"], ["food"]⟩

/-! ## Facts about `firstSeen` -/

theorem firstSeen_loop_mem (v : String) :
    ∀ (vals acc : List String),
      v ∈ vals.foldl (fun acc v => if acc.contains v then acc else acc ++ [v]) acc
        ↔ v ∈ acc ∨ v ∈ vals := by
  intro vals
  induction vals with
  | nil => intro acc; simp
  | cons a vals ih =>
    intro acc
    by_cases h : acc.contains a
    · have ha : a ∈ acc := by simpa using h
      simp only [List.foldl_cons, h, if_true, ih acc, List.mem_cons]
      constructor
      · rintro (hv | hv)
        · exact Or.inl hv
        · exact Or.inr (Or.inr hv)
      · rintro (hv | rfl | hv)
        · exact Or.inl hv
        · exact Or.inl ha
        · exact Or.inr hv
    · simp only [List.foldl_cons, h, Bool.false_eq_true, if_false, ih (acc ++ [a]),
        List.mem_append, List.mem_singleton, List.mem_cons]
      tauto

theorem firstSeen_loop_nodup :
    ∀ (vals acc : List String), acc.Nodup →
      (vals.foldl (fun acc v => if acc.contains v then acc else acc ++ [v]) acc).Nodup := by
  intro vals
  induction vals with
  | nil => intro acc h; simpa using h
  | cons a vals ih =>
    intro acc hacc
    by_cases h : acc.contains a
    · simpa only [List.foldl_cons, h, if_true] using ih acc hacc
    · have ha : a ∉ acc := by simpa using h
      have : (acc ++ [a]).Nodup := by
        simp [List.nodup_append, hacc, ha]
      simpa only [List.foldl_cons, h, Bool.false_eq_true, if_false] using ih (acc ++ [a]) this

theorem mem_firstSeen (v : String) (vals : List String) :
    v ∈ firstSeen vals ↔ v ∈ vals := by
  constructor
  · intro hv
    rcases (firstSeen_loop_mem v vals []).mp hv with h | h
    · exact absurd h (List.not_mem_nil v)
    · exact h
  · intro hv
    exact (firstSeen_loop_mem v vals []).mpr (Or.inr hv)

theorem nodup_firstSeen (vals : List String) : (firstSeen vals).Nodup :=
  firstSeen_loop_nodup vals [] List.nodup_nil

theorem firstSeen_ne_nil (vals : List String) (h : vals ≠ []) : firstSeen vals ≠ [] := by
  rcases vals with _ | ⟨a, vals⟩
  · exact absurd rfl h
  · intro hnil
    have : a ∈ firstSeen (a :: vals) := (mem_firstSeen a _).mpr (List.mem_cons_self a vals)
    rw [hnil] at this
    exact List.not_mem_nil a this

/-! ## Facts about `freq_pairs` and `value_counts` -/

theorem mem_freq_pairs (col : List (Option String)) (p : String × Nat) :
    p ∈ freq_pairs col
      ↔ p.1 ∈ col.filterMap id ∧ p.2 = (col.filterMap id).count p.1 := by
  simp only [freq_pairs, List.mem_map]
  constructor
  · rintro ⟨v, hv, rfl⟩
    exact ⟨(mem_firstSeen v _).mp hv, rfl⟩
  · rintro ⟨h1, h2⟩
    exact ⟨p.1, (mem_firstSeen p.1 _).mpr h1, by rw [← h2]⟩

theorem freq_pairs_count_pos (col : List (Option String)) (p : String × Nat)
    (h : p ∈ freq_pairs col) : 0 < p.2 := by
  rcases (mem_freq_pairs col p).mp h with ⟨h1, h2⟩
  rw [h2]
  exact List.count_pos_iff.mpr h1

theorem freq_pairs_sum (col : List (Option String)) :
    ((freq_pairs col).map (·.2)).sum = (col.filterMap id).length := by
  have hperm : List.Perm (firstSeen (col.filterMap id)) (col.filterMap id).dedup :=
    (List.perm_ext_iff_of_nodup (nodup_firstSeen _) (col.filterMap id).nodup_dedup).mpr
      (fun v => by rw [mem_firstSeen, List.mem_dedup])
  have : ((freq_pairs col).map (·.2))
      = (firstSeen (col.filterMap id)).map fun v => (col.filterMap id).count v := by
    simp [freq_pairs, Function.comp]
  rw [this, (hperm.map _).sum_eq, List.sum_map_count_dedup_eq_length]

theorem value_counts_perm (col : List (Option String)) :
    List.Perm (value_counts col) (freq_pairs col) :=
  stableSortBy_perm countDesc (freq_pairs col)

theorem mem_value_counts (col : List (Option String)) (p : String × Nat) :
    p ∈ value_counts col ↔ p ∈ freq_pairs col :=
  (value_counts_perm col).mem_iff

theorem value_counts_sum (col : List (Option String)) :
    ((value_counts col).map (·.2)).sum = (col.filterMap id).length := by
  rw [((value_counts_perm col).map _).sum_eq, freq_pairs_sum]

theorem countDesc_total (x y : String × Nat) :
    countDesc x y = false → countDesc y x = true := by
  simp only [countDesc, decide_eq_false_iff_not, decide_eq_true_eq]
  omega

theorem countDesc_trans (x y z : String × Nat) :
    countDesc x y = true → countDesc y z = true → countDesc x z = true := by
  simp only [countDesc, decide_eq_true_eq]
  omega

theorem countAsc_total (x y : String × Nat) :
    countAsc x y = false → countAsc y x = true := by
  simp only [countAsc, decide_eq_false_iff_not, decide_eq_true_eq]
  omega

theorem countAsc_trans (x y z : String × Nat) :
    countAsc x y = true → countAsc y z = true → countAsc x z = true := by
  simp only [countAsc, decide_eq_true_eq]
  omega

theorem value_counts_sorted (col : List (Option String)) :
    (value_counts col).Pairwise (fun a b => b.2 ≤ a.2) := by
  have := pairwise_stableSortBy countDesc countDesc_total countDesc_trans (freq_pairs col)
  exact this.imp (fun h => by simpa [countDesc] using h)

theorem value_counts_count_pos (col : List (Option String)) (p : String × Nat)
    (h : p ∈ value_counts col) : 0 < p.2 :=
  freq_pairs_count_pos col p ((mem_value_counts col p).mp h)

theorem value_counts_length (col : List (Option String)) :
    (value_counts col).length = (firstSeen (col.filterMap id)).length := by
  rw [(value_counts_perm col).length_eq, freq_pairs, List.length_map]

theorem value_counts_ne_nil (col : List (Option String))
    (h : col.filterMap id ≠ []) : value_counts col ≠ [] := by
  intro hnil
  have hfs : firstSeen (col.filterMap id) ≠ [] := firstSeen_ne_nil _ h
  have hlen := value_counts_length col
  rw [hnil] at hlen
  exact hfs (List.length_eq_zero.mp hlen.symm)

/-! ## Facts about `seriesMax` and `idxmax` -/

theorem foldl_max_const : ∀ (l : List Nat) (i : Nat), (∀ x ∈ l, x ≤ i) →
    l.foldl Nat.max i = i := by
  intro l
  induction l with
  | nil => intro i _; rfl
  | cons a l ih =>
    intro i h
    have ha : a ≤ i := h a (List.mem_cons_self a l)
    simp only [List.foldl_cons, Nat.max_eq_left ha]
    exact ih i (fun x hx => h x (List.mem_cons_of_mem a hx))

theorem seriesMax_cons (p : String × Nat) (l : List (String × Nat))
    (h : ∀ q ∈ l, q.2 ≤ p.2) : seriesMax (p :: l) = p.2 := by
  simp only [seriesMax, List.map_cons, List.foldl_cons, Nat.zero_max]
  apply foldl_max_const
  intro x hx
  rcases List.mem_map.mp hx with ⟨q, hq, rfl⟩
  exact h q hq

theorem idxmax_cons (p : String × Nat) (l : List (String × Nat))
    (h : ∀ q ∈ l, q.2 ≤ p.2) : idxmax (p :: l) = some p.1 := by
  simp [idxmax, List.find?_cons, seriesMax_cons p l h]

theorem top_states_sorted (rs : List Record) :
    (top_states rs).Pairwise (fun a b => b.2 ≤ a.2) :=
  (value_counts_sorted _).sublist (List.take_sublist 6 _)

/-! ## Facts about the filter -/

theorem isinCell_eq_true (cell : Option String) (vals : List String) :
    isinCell cell vals = true ↔ ∃ v, cell = some v ∧ v ∈ vals := by
  cases cell <;> simp [isinCell]

theorem mem_filtered_df (rs : List Record) (sel : FilterSelection) (r : Record) :
    r ∈ filtered_df rs sel ↔
      r ∈ rs ∧ (∃ s, r.state = some s ∧ s ∈ sel.selectedStates)
            ∧ (∃ i, r.industry = some i ∧ i ∈ sel.selectedIndustries) := by
  simp only [filtered_df, List.mem_filter, Bool.and_eq_true, isinCell_eq_true]

/-! ## Claim C1 -/

/-- Claim C1: a record of `R` appears in the output of the selection filter if
and only if its state is a member of `selectedStates` and its industry is a
member of `selectedIndustries` (conjunctive, never disjunctive); in particular
the output is a subset of `R`, and when `selectedStates` is empty no record
passes. -/
theorem filter_conjunctivity (rs : List Record) (sel : FilterSelection) :
    (∀ r, r ∈ filtered_df rs sel ↔
      r ∈ rs ∧ (∃ s, r.state = some s ∧ s ∈ sel.selectedStates)
            ∧ (∃ i, r.industry = some i ∧ i ∈ sel.selectedIndustries))
    ∧ (∀ r ∈ filtered_df rs sel, r ∈ rs)
    ∧ (sel.selectedStates = [] → filtered_df rs sel = []) := by
  refine ⟨mem_filtered_df rs sel, ?_, ?_⟩
  · intro r hr
    exact ((mem_filtered_df rs sel r).mp hr).1
  · intro hempty
    rw [List.eq_nil_iff_forall_not_mem]
    intro r hr
    rcases ((mem_filtered_df rs sel r).mp hr).2.1 with ⟨s, _, hs⟩
    rw [hempty] at hs
    exact List.not_mem_nil s hs

/-- Witness for C1 on concrete data: the three demo rows all pass the matching
selection, and the empty-states selection lets nothing through. -/
theorem filter_conjunctivity_witness :
    (mkRec "r1" "ikeja" "Lagos" "food" ∈ filtered_df demoRows demoSel
      ↔ mkRec "r1" "ikeja" "Lagos" "food" ∈ demoRows
        ∧ (∃ s, (mkRec "r1" "ikeja" "Lagos" "food").state = some s ∧ s ∈ demoSel.selectedStates)
        ∧ (∃ i, (mkRec "r1" "ikeja" "Lagos" "food").industry = some i ∧ i ∈ demoSel.selectedIndustries))
    ∧ filtered_df demoRows emptyStatesSel = [] :=
  ⟨(filter_conjunctivity demoRows demoSel).1 _,
   (filter_conjunctivity demoRows emptyStatesSel).2.2 rfl⟩

/-! ## Claim C6 -/

/-- Claim C6: the records surviving the filter appear in the output in the
same relative order as in the input — the filter output is a sublist of the
input, never a re-sort. -/
theorem filter_order_preservation (rs : List Record) (sel : FilterSelection) :
    (filtered_df rs sel).Sublist rs :=
  List.filter_sublist rs

/-! ## Claim C7 -/

/-- Claim C7: the summary's `stateCount` is the number of selected states
(the length of the duplicate-free selection list, i.e. its cardinality),
independent of the filtered records. -/
theorem summary_stateCount (rs : List Record) (sel : FilterSelection) :
    (summarize rs sel).stateCount = sel.selectedStates.length
    ∧ (sel.selectedStates.Nodup →
        (summarize rs sel).stateCount = sel.selectedStates.toFinset.card) := by
  refine ⟨rfl, ?_⟩
  intro hnd
  rw [List.toFinset_card_of_nodup hnd]
  rfl

/-- Witness for C7 on concrete data: with two selected states matching zero
records, `stateCount` is still 2. -/
theorem summary_stateCount_witness :
    (summarize (filtered_df demoRows noMatchStatesSel) noMatchStatesSel).stateCount
      = noMatchStatesSel.selectedStates.toFinset.card
    ∧ noMatchStatesSel.selectedStates.toFinset.card = 1 :=
  ⟨(summary_stateCount (filtered_df demoRows noMatchStatesSel) noMatchStatesSel).2
    (by decide), by decide⟩

/-! ## Claim C8 -/

/-- Claim C8: when `selectedIndustries` is empty the industries display value
is the literal string `"All"` (not an empty list), while a non-empty
`selectedStates` that matches no record still yields an empty filter
result. -/
theorem industries_all_display (rs : List Record) (sel : FilterSelection) :
    (sel.selectedIndustries = [] → (summarize rs sel).industriesDisplay = "All")
    ∧ ((∀ r ∈ rs, ∀ s, r.state = some s → s ∉ sel.selectedStates) →
        filtered_df rs sel = []) := by
  constructor
  · intro h
    simp [summarize, h]
  · intro hnone
    rw [List.eq_nil_iff_forall_not_mem]
    intro r hr
    rcases (mem_filtered_df rs sel r).mp hr with ⟨hin, ⟨s, hs, hmem⟩, -⟩
    exact hnone r hin s hs hmem

/-- Witness for C8 on concrete data: the empty industries selection displays
`"All"`, and a state selection matching no demo row filters everything out. -/
theorem industries_all_display_witness :
    (summarize demoRows emptyIndustriesSel).industriesDisplay = "All"
    ∧ filtered_df demoRows noMatchStatesSel = [] :=
  ⟨(industries_all_display demoRows emptyIndustriesSel).1 rfl,
   (industries_all_display demoRows noMatchStatesSel).2 (by decide)⟩

/-! ## Claim C2 -/

/-- Counterexample to claim C2 as stated: on the demo rows the city ranking
returned by line 96 is `[("ibadan", 1), ("ikeja", 2)]` — ordered ascending by
count because of the trailing `sort_values()` — so the city top-10 is not
ordered descending by count. -/
theorem ranking_descending_cex :
    city_counts demoRows = [("ibadan", 1), ("ikeja", 2)]
    ∧ ¬ (city_counts demoRows).Pairwise (fun a b => b.2 ≤ a.2) := by
  exact ⟨rfl, by decide⟩

/-- Claim C2 (amended): the state ranking (`value_counts` and its top-6
prefix) is ordered descending by count with ties kept in the order the
distinct values were first observed in the input; the city top-10 is selected
by the same descending-with-stable-ties ranking, but the sequence line 96
returns is then re-sorted ascending by count (ties again keeping their
relative order), so it is ordered ascending, not descending. -/
theorem ranking_order (rs : List Record) :
    (state_counts rs).Pairwise (fun a b => b.2 ≤ a.2)
    ∧ (top_states rs).Pairwise (fun a b => b.2 ≤ a.2)
    ∧ (∀ c, (state_counts rs).filter (fun p => p.2 == c)
        = (freq_pairs (rs.map (·.state))).filter (fun p => p.2 == c))
    ∧ (city_counts rs).Pairwise (fun a b => a.2 ≤ b.2)
    ∧ (∀ c, (city_counts rs).filter (fun p => p.2 == c)
        = ((value_counts (rs.map (·.city))).take 10).filter (fun p => p.2 == c)) := by
  refine ⟨value_counts_sorted _, top_states_sorted rs, ?_, ?_, ?_⟩
  · intro c
    exact filter_stableSortBy countDesc _
      (fun x y hx hy => by
        simp only [beq_iff_eq] at hx hy
        simp [countDesc, hx, hy]) _
  · have := pairwise_stableSortBy countAsc countAsc_total countAsc_trans
      ((value_counts (rs.map (·.city))).take 10)
    exact this.imp (fun h => by simpa [countAsc] using h)
  · intro c
    exact filter_stableSortBy countAsc _
      (fun x y hx hy => by
        simp only [beq_iff_eq] at hx hy
        simp [countAsc, hx, hy]) _

/-! ## Claim C3 -/

/-- Claim C3: with more than six distinct state values the remainder mass is
strictly positive, the collapsed ranking has exactly seven entries and ends in
`("Others", f)` where `f` is the summed remainder; with at most six distinct
values (in particular whenever the remainder is zero) no synthetic entry is
appended and the ranking has `min(k, 6) = k` entries. -/
theorem collapse_correctness (rs : List Record) :
    (6 < (state_counts rs).length →
       0 < others rs
       ∧ (state_ranked rs).length = 7
       ∧ (state_ranked rs).getLast? = some ("Others", others rs))
    ∧ ((state_counts rs).length ≤ 6 →
       others rs = 0
       ∧ state_ranked rs = top_states rs
       ∧ (state_ranked rs).length = (state_counts rs).length) := by
  constructor
  · intro hk
    have hlen : 0 < ((state_counts rs).drop 6).length := by
      rw [List.length_drop]
      omega
    have hpos : 0 < others rs := by
      rcases hd : (state_counts rs).drop 6 with _ | ⟨q, t⟩
      · rw [hd] at hlen
        simp at hlen
      · have hq : q ∈ state_counts rs :=
          (List.drop_sublist 6 (state_counts rs)).mem (hd ▸ List.mem_cons_self q t)
        have hqpos : 0 < q.2 := value_counts_count_pos _ q hq
        have : others rs = q.2 + (t.map (·.2)).sum := by
          rw [others, hd]
          simp
        omega
    refine ⟨hpos, ?_, ?_⟩
    · rw [state_ranked, if_pos hpos, List.length_append, top_states, List.length_take]
      simp
      omega
    · rw [state_ranked, if_pos hpos, List.getLast?_concat]
  · intro hk
    have hdrop : (state_counts rs).drop 6 = [] := List.drop_eq_nil_of_le hk
    have h0 : others rs = 0 := by
      rw [others, hdrop]
      rfl
    have hrank : state_ranked rs = top_states rs := by
      rw [state_ranked, h0]
      simp
    refine ⟨h0, hrank, ?_⟩
    rw [hrank, top_states, List.length_take]
    omega

/-- Witness for C3 on concrete data: the eight case-variant states give a
seven-entry ranking ending in `("Others", 2)`, and the two-state demo rows
give an uncollapsed two-entry ranking. -/
theorem collapse_correctness_witness :
    ((state_ranked caseVariantRows).length = 7
      ∧ (state_ranked caseVariantRows).getLast? = some ("Others", others caseVariantRows))
    ∧ (state_ranked demoRows = top_states demoRows
      ∧ (state_ranked demoRows).length = 2) :=
  ⟨⟨((collapse_correctness caseVariantRows).1 (by decide)).2.1,
    ((collapse_correctness caseVariantRows).1 (by decide)).2.2⟩,
   ⟨((collapse_correctness demoRows).2 (by decide)).2.1,
    by rw [((collapse_correctness demoRows).2 (by decide)).2.2]; decide⟩⟩

/-! ## Claim C4 -/

/-- Counterexample to claim C4 as stated: with eleven distinct city values the
`head(10)` truncation drops one of them, so the counts of the returned city
ranking sum to 10 while the input column has 11 non-missing values. -/
theorem aggregation_totals_cex :
    ((city_counts elevenCityRows).map (·.2)).sum = 10
    ∧ (elevenCityRows.filterMap (·.city)).length = 11
    ∧ ((city_counts elevenCityRows).map (·.2)).sum
        ≠ (elevenCityRows.filterMap (·.city)).length := by
  exact ⟨rfl, rfl, by decide⟩

/-- Claim C4 (amended): the counts of the full, untruncated frequency ranking
of a column sum to the number of non-missing values of that column; the city
top-10 keeps that total exactly when the column has at most ten distinct
values (the `head(10)` truncation drops the excess otherwise). -/
theorem aggregation_totals (rs : List Record) :
    ((value_counts (rs.map (·.city))).map (·.2)).sum = (rs.filterMap (·.city)).length
    ∧ ((value_counts (rs.map (·.city))).length ≤ 10 →
        ((city_counts rs).map (·.2)).sum = (rs.filterMap (·.city)).length) := by
  have hcol : (rs.map (·.city)).filterMap id = rs.filterMap (·.city) := by
    rw [List.filterMap_map]
    rfl
  constructor
  · rw [value_counts_sum, hcol]
  · intro hlen
    have htake : (value_counts (rs.map (·.city))).take 10 = value_counts (rs.map (·.city)) :=
      List.take_of_length_le hlen
    rw [city_counts, htake, ((stableSortBy_perm countAsc _).map _).sum_eq,
      value_counts_sum, hcol]

/-- Witness for C4 on concrete data: the demo rows have two distinct cities,
so the returned city ranking's counts sum to all three non-missing city
values. -/
theorem aggregation_totals_witness :
    ((city_counts demoRows).map (·.2)).sum = (demoRows.filterMap (·.city)).length
    ∧ (demoRows.filterMap (·.city)).length = 3 :=
  ⟨(aggregation_totals demoRows).2 (by decide), by decide⟩

/-! ## Facts about the summarizer -/

theorem summarize_top (rs : List Record) (sel : FilterSelection)
    (p : String × Nat) (l : List (String × Nat)) (h : top_states rs = p :: l) :
    (summarize rs sel).topState = title p.1
    ∧ (summarize rs sel).topStateCount = p.2
    ∧ ∀ q ∈ top_states rs, q.2 ≤ p.2 := by
  have hsorted := top_states_sorted rs
  rw [h] at hsorted
  have hb : ∀ q ∈ l, q.2 ≤ p.2 := (List.pairwise_cons.mp hsorted).1
  have hall : ∀ q ∈ top_states rs, q.2 ≤ p.2 := by
    intro q hq
    rw [h] at hq
    rcases List.mem_cons.mp hq with rfl | hq
    · exact le_refl _
    · exact hb q hq
  refine ⟨?_, ?_, hall⟩
  · simp [summarize, h, idxmax_cons p l hb]
  · simp [summarize, h, seriesMax_cons p l hb]

theorem summarize_empty_top (rs : List Record) (sel : FilterSelection)
    (h : top_states rs = []) :
    (summarize rs sel).topState = "N/A" ∧ (summarize rs sel).topStateCount = 0 := by
  rw [summarize]
  simp only [h]
  exact ⟨rfl, rfl⟩

theorem mem_regionFilter (df : List Record) (r : Record) (h : r ∈ regionFilter df) :
    r ∈ df ∧ ∃ s, r.state = some s ∧ lowerStr s ∈ south_west_states := by
  rcases List.mem_filter.mp h with ⟨h1, h2⟩
  refine ⟨h1, ?_⟩
  cases hs : r.state with
  | none =>
    rw [hs] at h2
    simp at h2
  | some s =>
    rw [hs] at h2
    exact ⟨s, rfl, by simpa using h2⟩

theorem filtered_state_allowed (df : List Record) (sel : FilterSelection)
    (r : Record) (h : r ∈ filtered_df (regionFilter df) sel) :
    ∃ s, r.state = some s ∧ lowerStr s ∈ south_west_states :=
  (mem_regionFilter df r ((mem_filtered_df _ sel r).mp h).1).2

theorem top_label_allowed (df : List Record) (sel : FilterSelection)
    (p : String × Nat) (hp : p ∈ top_states (filtered_df (regionFilter df) sel)) :
    lowerStr p.1 ∈ south_west_states := by
  have hvc : p ∈ state_counts (filtered_df (regionFilter df) sel) :=
    (List.take_sublist 6 _).mem hp
  have hfp := (mem_value_counts _ p).mp hvc
  have hmem : p.1 ∈ ((filtered_df (regionFilter df) sel).map (·.state)).filterMap id :=
    ((mem_freq_pairs _ p).mp hfp).1
  rw [List.filterMap_map] at hmem
  rcases List.mem_filterMap.mp hmem with ⟨r, hr, hstate⟩
  simp only [Function.comp_apply, id_eq] at hstate
  rcases filtered_state_allowed df sel r hr with ⟨s, hs, hlow⟩
  rw [hs] at hstate
  cases Option.some.inj hstate
  exact hlow

/-! ## Claim C5 -/

/-- Counterexample to claim C5 as stated: after the region and selection
filters, the eight case-variant rows yield the collapsed state RankedCount
whose unique highest-count entry is the synthetic `("Others", 2)` bucket, so
the claim demands `topState = "Others"` with count 2; the code instead takes
`idxmax`/`max` of the uncollapsed top-6 and reports `"Lagos"` with count 1. -/
theorem summarize_topState_cex :
    spec_topState (filtered_df (regionFilter caseVariantRows) caseVariantSel) = "Others"
    ∧ spec_topStateCount (filtered_df (regionFilter caseVariantRows) caseVariantSel) = 2
    ∧ (summarize (filtered_df (regionFilter caseVariantRows) caseVariantSel)
        caseVariantSel).topState = "Lagos"
    ∧ (summarize (filtered_df (regionFilter caseVariantRows) caseVariantSel)
        caseVariantSel).topStateCount = 1
    ∧ (summarize (filtered_df (regionFilter caseVariantRows) caseVariantSel)
        caseVariantSel).topState
      ≠ spec_topState (filtered_df (regionFilter caseVariantRows) caseVariantSel) := by
  exact ⟨rfl, rfl, rfl, rfl, by decide⟩

/-- Claim C5 (amended): `summarize` returns `topState` equal to the
title-cased label of the first highest-count entry of the *uncollapsed top-6*
state ranking — the synthetic `Others` bucket is never consulted — and
`topStateCount` equal to that entry's count; when that ranking is empty it
returns the normal values `"N/A"` and `0`, never an exception (the embedding
is a total function). -/
theorem summarize_topState (rs : List Record) (sel : FilterSelection) :
    (∀ p l, top_states rs = p :: l →
      (summarize rs sel).topState = title p.1
      ∧ (summarize rs sel).topStateCount = p.2
      ∧ ∀ q ∈ top_states rs, q.2 ≤ p.2)
    ∧ (top_states rs = [] →
      (summarize rs sel).topState = "N/A" ∧ (summarize rs sel).topStateCount = 0) :=
  ⟨fun p l h => summarize_top rs sel p l h, summarize_empty_top rs sel⟩

/-- Witness for C5 on concrete data: on the demo rows the summary reports the
title-cased top label `"Lagos"` with count 2, and on no rows at all it reports
`"N/A"` with count 0. -/
theorem summarize_topState_witness :
    (summarize demoRows demoSel).topState = title "Lagos"
    ∧ (summarize demoRows demoSel).topStateCount = 2
    ∧ (summarize [] demoSel).topState = "N/A"
    ∧ (summarize [] demoSel).topStateCount = 0 :=
  ⟨(((summarize_topState demoRows demoSel).1 ("Lagos", 2) [("Oyo", 1)] (by decide))).1,
   (((summarize_topState demoRows demoSel).1 ("Lagos", 2) [("Oyo", 1)] (by decide))).2.1,
   ((summarize_topState [] demoSel).2 rfl).1,
   ((summarize_topState [] demoSel).2 rfl).2⟩

/-! ## Claim C9 -/

/-- Counterexample to claim C9 as stated: eight case-variant spellings all
pass the case-insensitive region pre-filter, so the collapsed state ranking
acquires the synthetic label `("Others", 2)`, and `"others"` is not in the
six-state allow-list. -/
theorem region_allowlist_cex :
    ("Others", 2) ∈ state_ranked (filtered_df (regionFilter caseVariantRows) caseVariantSel)
    ∧ lowerStr "Others" ∉ south_west_states := by
  decide

/-- Claim C9 (amended): every record that reaches the filtering and
aggregation stages has a present state whose lowercasing is one of the six
allow-listed values; consequently every label of the state ranking other than
the synthetic `"Others"` bucket lowercases into the six-state set, and the
reported `topState` is either the `"N/A"` fallback or the title-cased form of
such a state. -/
theorem region_allowlist (df : List Record) (sel : FilterSelection) :
    (∀ r ∈ filtered_df (regionFilter df) sel,
       ∃ s, r.state = some s ∧ lowerStr s ∈ south_west_states)
    ∧ (∀ p ∈ state_ranked (filtered_df (regionFilter df) sel),
        p.1 = "Others" ∨ lowerStr p.1 ∈ south_west_states)
    ∧ ((summarize (filtered_df (regionFilter df) sel) sel).topState = "N/A"
       ∨ ∃ s, lowerStr s ∈ south_west_states
           ∧ (summarize (filtered_df (regionFilter df) sel) sel).topState = title s) := by
  refine ⟨filtered_state_allowed df sel, ?_, ?_⟩
  · intro p hp
    rcases List.mem_append.mp hp with hp | hp
    · exact Or.inr (top_label_allowed df sel p hp)
    · by_cases hpos : 0 < others (filtered_df (regionFilter df) sel)
      · rw [if_pos hpos] at hp
        rcases List.mem_singleton.mp hp with rfl
        exact Or.inl rfl
      · rw [if_neg hpos] at hp
        exact absurd hp (List.not_mem_nil p)
  · rcases htop : top_states (filtered_df (regionFilter df) sel) with _ | ⟨p, l⟩
    · exact Or.inl (summarize_empty_top _ sel htop).1
    · refine Or.inr ⟨p.1, ?_, ?_⟩
      · exact top_label_allowed df sel p (htop ▸ List.mem_cons_self p l)
      · exact (summarize_top _ sel p l htop).1

/-- Witness for C9 on concrete data: the first demo row survives the pipeline
and its state `"Lagos"` lowercases into the allow-list, and the summary's top
state is the title-cased form of such a state. -/
theorem region_allowlist_witness :
    (∃ s, (mkRec "r1" "ikeja" "Lagos" "food").state = some s
        ∧ lowerStr s ∈ south_west_states)
    ∧ (("Lagos", 2) = ("Lagos", 2)
        ∨ ("Lagos", 2) ∈ state_ranked (filtered_df (regionFilter demoRows) demoSel)) :=
  ⟨(region_allowlist demoRows demoSel).1 (mkRec "r1" "ikeja" "Lagos" "food") (by decide),
   Or.inl rfl⟩

/-! ## Claim C10 -/

/-- Claim C10: the insight block is only computed for a non-empty filtered
record set; because the region pre-filter guarantees every surviving record a
present state, the state frequency ranking is then non-empty as well, so the
`"N/A"`/`0` fallback branch of lines 117-118 is unreachable (the reported top
count is even strictly positive, unlike the fallback's `0`). -/
theorem fallback_unreachable (df : List Record) (sel : FilterSelection)
    (h : filtered_df (regionFilter df) sel ≠ []) :
    top_states (filtered_df (regionFilter df) sel) ≠ []
    ∧ 0 < (summarize (filtered_df (regionFilter df) sel) sel).topStateCount := by
  rcases List.exists_mem_of_ne_nil _ h with ⟨r, hr⟩
  rcases filtered_state_allowed df sel r hr with ⟨s, hs, -⟩
  have hsmem : s ∈ (filtered_df (regionFilter df) sel).filterMap (·.state) :=
    List.mem_filterMap.mpr ⟨r, hr, hs⟩
  have hcol : ((filtered_df (regionFilter df) sel).map (·.state)).filterMap id
      = (filtered_df (regionFilter df) sel).filterMap (·.state) := by
    rw [List.filterMap_map]
    rfl
  have hvc : state_counts (filtered_df (regionFilter df) sel) ≠ [] := by
    apply value_counts_ne_nil
    rw [hcol]
    exact List.ne_nil_of_mem hsmem
  have htop : top_states (filtered_df (regionFilter df) sel) ≠ [] := by
    rw [top_states]
    intro hnil
    rcases List.take_eq_nil_iff.mp hnil with h6 | hvnil
    · exact absurd h6 (by decide)
    · exact hvc hvnil
  refine ⟨htop, ?_⟩
  rcases ht : top_states (filtered_df (regionFilter df) sel) with _ | ⟨p, l⟩
  · exact absurd ht htop
  · rw [(summarize_top _ sel p l ht).2.1]
    exact value_counts_count_pos _ p ((List.take_sublist 6 _).mem (ht ▸ List.mem_cons_self p l))

/-- Witness for C10 on concrete data: the demo rows survive the pipeline, the
top-6 state ranking is non-empty and the reported top count is positive. -/
theorem fallback_unreachable_witness :
    top_states (filtered_df (regionFilter demoRows) demoSel) ≠ []
    ∧ 0 < (summarize (filtered_df (regionFilter demoRows) demoSel) demoSel).topStateCount :=
  fallback_unreachable demoRows demoSel (by decide)

/-- Witness for C2 on concrete data: the filter-by-count subsequence of the
sorted state ranking coincides with the first-observed frequency pairs. -/
theorem ranking_order_witness :
    (state_counts demoRows).filter (fun p => p.2 == 1)
      = (freq_pairs (demoRows.map (·.state))).filter (fun p => p.2 == 1) :=
  (ranking_order demoRows).2.2.1 1

end SmeApp
